import Mathlib

/-
Verification of the multi-modal keyframe retrieval engine.

This file gives a shallow embedding, in Lean 4, of the core retrieval code:

  * `backend/utils/faiss_processing_beit3.py`
      (`MyFaiss.text_search`, `MyFaiss.image_search`, `MyFaiss.temporal_search`),
  * `backend/services/temporal_service.py` (`TemporalService.temporal_search`),
  * `backend/services/search_service.py`
      (`SearchService.text_search`, `SearchService._search_all_models`,
       `SearchService._remove_duplicates`),
  * `backend/utils/faiss_processing.py`
      (`MyFaiss._truncate_text_for_clip` and the CLIP retry in `text_search`),

and proves, or refutes, the specified properties of that code.

Modelling conventions:
  * Python strings are `List Char` (`Str`); Python `str.split` / `strip` /
    `os.path` helpers are re-implemented below with Python semantics.
  * Floating-point scores are modelled as rationals (`ℚ`).  Operations whose
    result is irrational in general (L2 normalisation, model inference, RNG
    draws) are oracles: opaque function fields of the engine structures whose
    outputs stand for the already-computed float values.
  * The FAISS index itself is an external library; its `search` is modelled
    from the spec contract (§4.1): exact inner-product scan, descending score,
    ties by ascending id, padded with sentinel entries when fewer than `k`
    vectors exist.
  * Exceptions are `Option` / `Except`; a `none` result of an oracle stands
    for the corresponding Python exception.
-/

attribute [local semireducible] Rat.add Rat.mul Rat.inv Rat.sub Rat.ofScientific

/-- Python strings, modelled as lists of characters. -/
abbrev Str := List Char

/-- Whitespace characters removed by Python's `str.strip()`. -/
def isPyWs (c : Char) : Bool :=
  c = ' ' || c = '\t' || c = '\n' || c = '\r' || c = '\x0b' || c = '\x0c'

/-- Python `s.strip()`. -/
def stripStr (s : Str) : Str :=
  ((s.dropWhile isPyWs).reverse.dropWhile isPyWs).reverse

/-- Helper for `splitOnChar`; `cur` holds the current chunk reversed. -/
def splitOnCharAux (sep : Char) : Str → Str → List Str
  | [], cur => [cur.reverse]
  | c :: cs, cur =>
    if c = sep then cur.reverse :: splitOnCharAux sep cs []
    else splitOnCharAux sep cs (c :: cur)

/-- Python `s.split(sep)` for a one-character separator (keeps empty chunks). -/
def splitOnChar (sep : Char) (s : Str) : List Str := splitOnCharAux sep s []

/-- Sentence segmentation of `temporal_search` step 0:
`[s.strip() for s in text.split(".") if s.strip()]`. -/
def splitSentencesDot (t : Str) : List Str :=
  ((splitOnChar '.' t).map stripStr).filter (fun s => s ≠ [])

/-- Python `os.path.basename(os.path.dirname(p))` for forward-slash paths. -/
def parentDirName (p : Str) : Str :=
  let parts := splitOnChar '/' p
  if 2 ≤ parts.length then parts.getD (parts.length - 2) [] else []

/-- Python `os.path.basename(p)` for forward-slash paths. -/
def basenameStr (p : Str) : Str := (splitOnChar '/' p).getLastD []

/-- Joins chunks with a one-character separator (inverse of `splitOnChar`). -/
def joinSep (sep : Char) : List Str → Str
  | [] => []
  | [x] => x
  | x :: xs => x ++ sep :: joinSep sep xs

/-- Python `os.path.splitext(s)[0]`: the part before the last dot. -/
def stemOf (s : Str) : Str :=
  let parts := splitOnChar '.' s
  if parts.length ≤ 1 then s else joinSep '.' parts.dropLast

/-- Python `int(s)` restricted to the digit strings that occur as zero-padded
frame numbers; any other string raises (is `none`). -/
def parseNatDigits (s : Str) : Option ℕ :=
  if s ≠ [] ∧ s.all Char.isDigit then
    some (s.foldl (fun n c => 10 * n + (c.toNat - 48)) 0)
  else none

/-- Row index recovered from an asset path in the anchor-bonus step:
`int(os.path.splitext(os.path.basename(img_path))[0]) - 1`. -/
def parseFrameRow (p : Str) : Option ℤ :=
  (parseNatDigits (stemOf (basenameStr p))).map (fun n => (n : ℤ) - 1)

/-- Python `f"{n:03d}"` for a natural number. -/
def pad3 (n : ℕ) : Str :=
  let d := Nat.toDigits 10 n
  List.replicate (3 - d.length) '0' ++ d

/-- Python `s[-n:]` for `n ≤ len(s)`. -/
def takeLast (n : ℕ) (s : Str) : Str := s.drop (s.length - n)

/-- Inner product of two equal-length vectors (`numpy`/`torch` dot). -/
def ip (q v : List ℚ) : ℚ := (List.zipWith (fun a b => a * b) q v).sum

/-- Torch `t.min()` over a non-empty tensor, as a list fold. -/
def listMin (l : List ℚ) : ℚ := l.foldl min (l.headD 0)

/-- Torch `t.max()` over a non-empty tensor, as a list fold. -/
def listMax (l : List ℚ) : ℚ := l.foldl max (l.headD 0)

/-- Per-sentence min-max normalisation of `temporal_search` step 3:
if `max - min < 1e-6` the whole vector becomes zero, otherwise
`(x - min) / (max - min)` elementwise. -/
def mmNorm (s : List ℚ) : List ℚ :=
  let a := listMin s
  let b := listMax s
  if b - a < 1 / 1000000 then List.replicate s.length 0
  else s.map (fun x => (x - a) / (b - a))

/-- Helper for `argmaxIdx`: first index attaining the maximum.  `i` is the
index of the next element, `b` the best index so far, `v` its value. -/
def argmaxAux : List ℚ → ℕ → ℕ → ℚ → ℕ
  | [], _, b, _ => b
  | x :: xs, i, b, v => if v < x then argmaxAux xs (i + 1) i x else argmaxAux xs (i + 1) b v

/-- First index of a maximal element (torch `argmax` / `max(dim)` indices). -/
def argmaxIdx : List ℚ → ℕ
  | [] => 0
  | x :: xs => argmaxAux xs 1 0 x

/-- Elementwise update of a vector with access to the index (used for the
in-place tensor writes of the anchor-bonus loop). -/
def mapWithIdx (f : ℕ → ℚ → ℚ) (b : List ℚ) : List ℚ :=
  (List.range b.length).map (fun t => f t (b.getD t 0))

/-- Stable insertion into a descending-by-key list; an element inserted from
the left of the original list lands before equal-key elements, which matches
Python's stable `sorted(..., reverse=True)`. -/
def insertDescBy {α : Type} (key : α → ℚ) (x : α) : List α → List α
  | [] => [x]
  | y :: ys => if key y ≤ key x then x :: y :: ys else y :: insertDescBy key x ys

/-- Stable descending sort by a rational key (Python
`sorted(l, key=..., reverse=True)`). -/
def sortDescBy {α : Type} (key : α → ℚ) (l : List α) : List α :=
  l.foldr (insertDescBy key) []

/-- Modelled from the spec: score of the sentinel padding entries of the
external FAISS index (spec §4.1, "score = -∞"; FAISS uses a large negative
float and id `-1`). -/
def eiSentinelScore : ℚ := -(10 ^ 38)

/-- Modelled from the spec: the external FAISS flat inner-product index
(spec §4.1).  Exact scan over the stored vectors, results sorted by
descending score with ties by ascending id (stable sort over the
id-ordered enumeration), truncated to `k` and padded with sentinel
entries when fewer than `k` vectors exist. -/
def eiSearch (vecs : List (List ℚ)) (q : List ℚ) (k : ℕ) : List (ℚ × ℤ) :=
  let scored := vecs.enum.map (fun p => (ip q p.2, (p.1 : ℤ)))
  let ranked := sortDescBy (fun r => r.1) scored
  let top := ranked.take k
  top ++ List.replicate (k - top.length) (eiSentinelScore, -1)

/-- Python `self.id2img.get(i)` over the loaded id→path JSON map. -/
def lookupZ (m : List (ℤ × Str)) (i : ℤ) : Option Str :=
  (m.find? (fun p => p.1 == i)).map (fun p => p.2)

/-- The per-model view of the loaded `MyFaiss` engine used by
`temporal_search`: the model dispatch of steps 1.1/1.2 selects one text
encoder and one FAISS index per `model_type`; `encode` and `indexVecs` are
that selected encoder (an oracle returning the already-normalised feature
vector) and index.  `videoFeats v` is `load_video_features(model, v)`
(`none` models the exception on a missing feature file). -/
structure Engine where
  translator : Str → Str
  encode : Str → List ℚ
  indexVecs : List (List ℚ)
  id2img : List (ℤ × Str)
  videoFeats : Str → Option (List (List ℚ))

/-- One entry of a per-sentence shortlist (`ranked_units` in step 1.3). -/
structure RankedUnit where
  video_id : Option Str
  image_path : Option Str
  faiss_id : ℤ
  score : ℚ
deriving DecidableEq

/-- One `per_sentence` element of the temporal result. -/
structure SentenceBlock where
  sentence : Str
  ranked : List RankedUnit
deriving DecidableEq

/-- One result of the single-sentence fallback branch (`unit_id` dict). -/
structure UnitHit where
  unit_id : Str
  score : ℚ
deriving DecidableEq

/-- One element of `results` in the multi-sentence temporal output. -/
structure VideoResult where
  video_id : Str
  frames : List ℕ
  images : List Str
  paths : List Str
  score : ℚ
deriving DecidableEq

/-- The two shapes of dictionary returned by `temporal_search`: the
single-sentence fallback returns keys `sentences`/`candidates`/`results`,
the multi-sentence path returns
`sentences`/`per_sentence`/`candidate_videos`/`results`. -/
inductive TemporalOut where
  | single (sentences : List Str) (candidates : List Str) (results : List UnitHit)
  | multi (sentences : List Str) (perSentence : List SentenceBlock)
      (candidateVideos : List Str) (results : List VideoResult)
deriving DecidableEq

/-- Dictionary keys of a `temporal_search` result. -/
def TemporalOut.keys : TemporalOut → List Str
  | .single _ _ _ =>
      [(r"sentences").toList, (r"candidates").toList, (r"results").toList]
  | .multi _ _ _ _ =>
      [(r"sentences").toList, (r"per_sentence").toList,
       (r"candidate_videos").toList, (r"results").toList]

/-- Results list of a multi-shaped temporal output (empty otherwise). -/
def multiResultsOf : Option TemporalOut → List VideoResult
  | some (.multi _ _ _ rs) => rs
  | _ => []

/-- Single-model `MyFaiss.text_search` as invoked by the `M = 1` fallback of
`temporal_search` (the per-model view: translate, encode, search, then map
surviving ids through `id2img`, dropping missing ids). -/
def textSearchE (e : Engine) (text : Str) (k : ℕ) : List ℚ × List ℤ × List Str :=
  let t := e.translator text
  let f := e.encode t
  let res := eiSearch e.indexVecs f k
  (res.map (fun r => r.1), res.map (fun r => r.2),
   (res.map (fun r => r.2)).filterMap (lookupZ e.id2img))

/-- Step 1.3 shortlist construction for one sentence: search, then resolve
`video_id = basename(dirname(path))` (Python `if img_path else None`, with
the empty string falsy). -/
def rankedUnitsFor (e : Engine) (topk : ℕ) (f : List ℚ) : List RankedUnit :=
  (eiSearch e.indexVecs f topk).map (fun r =>
    let p := lookupZ e.id2img r.2
    { video_id :=
        match p with
        | some q => if q = [] then none else some (parentDirName q)
        | none => none,
      image_path := p, faiss_id := r.2, score := r.1 })

/-- Candidate-video accumulation of step 1.3: scan one sentence's units in
order, admitting unseen video ids while fewer than `max_candidate_videos`
are collected. -/
def scanCandidates (maxc : ℕ) (acc : List Str) (units : List RankedUnit) : List Str :=
  units.foldl (fun cs u =>
    match u.video_id with
    | some v => if v ∉ cs ∧ cs.length < maxc then cs ++ [v] else cs
    | none => cs) acc

/-- Triangular decay `1 - |t - j| / (anchor_window + 1)` with
`anchor_window = 2`. -/
def anchorDecay (j : ℤ) (t : ℕ) : ℚ := 1 - ((|(t : ℤ) - j| : ℤ) : ℚ) / 3

/-- One iteration of the anchor-bonus loop: parse the row index from the
hit's path and raise the bonus on the window `[j-2, j+2] ∩ [0, N)`; a
missing, empty or unparseable path, or `j` outside `[0, N)`, contributes
nothing.  The windowed in-place writes `for t in range(max(0,j-2),
min(N,j+3))` are expressed as an elementwise update guarded by
`|t - j| ≤ 2`, which covers the same indices. -/
def applyAnchorHit (N : ℕ) (b : List ℚ) (u : RankedUnit) : List ℚ :=
  match u.image_path with
  | none => b
  | some p =>
    if p = [] then b
    else
      match parseFrameRow p with
      | none => b
      | some j =>
        if 0 ≤ j ∧ j < (N : ℤ) then
          mapWithIdx (fun t x =>
            if |(t : ℤ) - j| ≤ 2 then max x (1 / 10 * anchorDecay j t) else x) b
        else b

/-- Anchor bonus vector for one sentence over one candidate video
(`anchor_top = 5`, `anchor_boost = 0.10`, `anchor_window = 2`): the first
five stored hits belonging to the video, folded over a zero vector. -/
def anchorBonus (units : List RankedUnit) (vid : Str) (N : ℕ) : List ℚ :=
  ((units.filter (fun u => u.video_id = some vid)).take 5).foldl
    (applyAnchorHit N) (List.replicate N 0)

/-- The claim's description of one anchor-bonus contribution at frame `t`
(used to compare the imperative construction with its specified closed
form). -/
def claimBonusStep (t : ℕ) (acc : ℚ) (u : RankedUnit) : ℚ :=
  match u.image_path with
  | none => acc
  | some p =>
    if p = [] then acc
    else
      match parseFrameRow p with
      | none => acc
      | some j =>
        if |(t : ℤ) - j| ≤ 2 then max acc (1 / 10 * anchorDecay j t) else acc

/-- DP mask value `-1e9` used for infeasible transitions. -/
def negInfQ : ℚ := -(10 ^ 9)

/-- Feasibility threshold `-1e8` of `valid_rows = best_vals > -1e8`. -/
def feasThreshQ : ℚ := -(10 ^ 8)

/-- Gap admissibility of step 4: `gap ≥ w_min` and, when `w_max` is set,
`gap ≤ w_max`. -/
def validGap (wmin : ℤ) (wmax : Option ℤ) (j c : ℕ) : Bool :=
  decide (wmin ≤ (c : ℤ) - (j : ℤ)) &&
    (match wmax with
     | none => true
     | some w => decide ((c : ℤ) - (j : ℤ) ≤ w))

/-- Row `j` of the masked score matrix: the successor scores where the gap
is admissible, `-1e9` elsewhere. -/
def maskedRow (N : ℕ) (sn : List ℚ) (wmin : ℤ) (wmax : Option ℤ) (j : ℕ) : List ℚ :=
  (List.range N).map (fun c => if validGap wmin wmax j c then sn.getD c 0 else negInfQ)

/-- Back-pointer for row `j`: the first index of the row maximum when that
maximum exceeds `-1e8`, otherwise `none` (the `-1` pointer). -/
def ptrEntry (N : ℕ) (sn : List ℚ) (wmin : ℤ) (wmax : Option ℤ) (j : ℕ) : Option ℕ :=
  let row := maskedRow N sn wmin wmax j
  if feasThreshQ < row.getD (argmaxIdx row) 0 then some (argmaxIdx row) else none

/-- Back-pointer table of one DP layer. -/
def ptrTable (N : ℕ) (sn : List ℚ) (wmin : ℤ) (wmax : Option ℤ) : List (Option ℕ) :=
  (List.range N).map (ptrEntry N sn wmin wmax)

/-- Scores of one DP layer: `score_prev[j] = best_vals[j] + work[i-1][j]`,
where `best_vals[j]` is the row maximum of the masked matrix (read off at
its first argmax index). -/
def dpStepScores (N : ℕ) (wprev sn : List ℚ) (wmin : ℤ) (wmax : Option ℤ) : List ℚ :=
  (List.range N).map (fun j =>
    let row := maskedRow N sn wmin wmax j
    row.getD (argmaxIdx row) 0 + wprev.getD j 0)

/-- The backward DP recursion of step 4 over the stack of per-sentence work
vectors: `score_next` starts as the last layer, each earlier layer
contributes a score row and a back-pointer table.  The tables are produced
here directly in forward order (`ptrs_forward = backptr_tables[::-1]` in
the source). -/
def dpRun (N : ℕ) (wmin : ℤ) (wmax : Option ℤ) :
    List (List ℚ) → List ℚ × List (List (Option ℕ))
  | [] => ([], [])
  | [w] => (w, [])
  | w :: w' :: rest =>
    let pr := dpRun N wmin wmax (w' :: rest)
    (dpStepScores N w pr.1 wmin wmax, ptrTable N pr.1 wmin wmax :: pr.2)

/-- Path reconstruction: follow the forward-ordered pointer tables from the
start frame; a `-1` pointer (here `none`) aborts. -/
def backtrack : List (List (Option ℕ)) → ℕ → Option (List ℕ)
  | [], cur => some [cur]
  | tbl :: rest, cur =>
    match tbl.getD cur none with
    | none => none
    | some nxt => (backtrack rest nxt).map (fun fr => cur :: fr)

/-- File name extension of the produced frame files. -/
def dotJpg : Str := ['.', 'j', 'p', 'g']

/-- Display path of a reported frame:
`os.path.join("keyframe_btc", f"Keyframes_{batch}", "keyframes", vid, fname)`
with `batch = vid.split('_')[0]`. -/
def framePath (vid : Str) (i : ℕ) : Str :=
  let batch := (splitOnChar '_' vid).headD []
  (r"keyframe_btc/Keyframes_").toList ++ batch ++ (r"/keyframes/").toList ++
    vid ++ '/' :: (pad3 (i + 1) ++ dotJpg)

/-- Per-video body of step 3: the stack of per-sentence work vectors: the
shifted similarities `0.5 * (T_i . rows) + 0.5`, min-max normalised, plus
the per-sentence anchor bonuses. -/
def workStack (feats textFeats : List (List ℚ))
    (perUnits : List (List RankedUnit)) (vid : Str) : List (List ℚ) :=
  let N := feats.length
  let sims := textFeats.map (fun T => feats.map (fun row => ip T row / 2 + 1 / 2))
  let norms := sims.map mmNorm
  let bonuses := perUnits.map (fun units => anchorBonus units vid N)
  List.zipWith (fun a b => List.zipWith (fun x y => x + y) a b) norms bonuses

/-- Per-video body of steps 3-4 (continued): run the DP over the work stack
and backtrack; a feasible path of the right length yields a result with
score `total * (100 / M)`. -/
def processVideo (feats : List (List ℚ)) (textFeats : List (List ℚ))
    (perUnits : List (List RankedUnit)) (vid : Str) (M : ℕ)
    (wmin : ℤ) (wmax : Option ℤ) : Option VideoResult :=
  if feats.length = 0 then none
  else
    let N := feats.length
    if N < M then none
    else
      let work := workStack feats textFeats perUnits vid
      let dp := dpRun N wmin wmax work
      let f0 := argmaxIdx dp.1
      let total := dp.1.getD f0 0
      match backtrack dp.2 f0 with
      | none => none
      | some frames =>
        if frames.length = M then
          some { video_id := vid, frames := frames,
                 images := frames.map (fun i => pad3 (i + 1) ++ dotJpg),
                 paths := frames.map (framePath vid),
                 score := total * (100 / (M : ℚ)) }
        else none

/-- Per-candidate wrapper: a failing feature load (`none`) skips the video. -/
def videoResultFor (e : Engine) (textFeats : List (List ℚ))
    (perUnits : List (List RankedUnit)) (M : ℕ) (wmin : ℤ) (wmax : Option ℤ)
    (v : Str) : Option VideoResult :=
  match e.videoFeats v with
  | none => none
  | some feats => processVideo feats textFeats perUnits v M wmin wmax

/-- All surviving per-video results, sorted by descending score (Python's
stable `results.sort(key=..., reverse=True)`), before the final `[:k]`. -/
def temporalUntruncated (e : Engine) (sents : List Str) (topk : ℕ)
    (candidates : List Str) (wmin : ℤ) (wmax : Option ℤ) : List VideoResult :=
  let textFeats := sents.map e.encode
  let perUnits := sents.map (fun s => (rankedUnitsFor e topk (e.encode s)).take 20)
  sortDescBy (fun r => r.score)
    (candidates.filterMap (videoResultFor e textFeats perUnits sents.length wmin wmax))

/-- Loop of the `M = 1` fallback over `zip(scores, paths)`: one hit per
unseen video id, with the `len(out) >= k` break tested after appending.
The Python `seen` set is kept in insertion order, standing in for the
unordered `list(seen)` in the returned `candidates`. -/
def sfLoop (k : ℕ) (acc : List UnitHit) (seen : List Str) :
    List (ℚ × Str) → List UnitHit × List Str
  | [] => (acc, seen)
  | (sc, p) :: rest =>
    let uid := parentDirName p
    if uid ∈ seen then sfLoop k acc seen rest
    else
      let acc2 := acc ++ [⟨uid, sc⟩]
      let seen2 := seen ++ [uid]
      if k ≤ acc2.length then (acc2, seen2) else sfLoop k acc2 seen2 rest

/-- `MyFaiss.temporal_search` (single-model view).  `none` models the
`assert len(sentences) >= 1` failure on an empty segmentation; otherwise
the single-sentence fallback or the full temporal pipeline runs, with the
final truncation applied only when `k > 0` (`if k and k > 0`). -/
def temporalSearch (e : Engine) (text : Str) (k topk maxc : ℕ)
    (wmin : ℤ) (wmax : Option ℤ) : Option TemporalOut :=
  let sents := splitSentencesDot (e.translator text)
  if sents.length = 0 then none
  else if sents.length = 1 then
    let ts := textSearchE e (sents.headD []) k
    let sf := sfLoop k [] [] (ts.1.zip ts.2.2)
    some (.single sents sf.2 sf.1)
  else
    let perSent := sents.map (fun s =>
      SentenceBlock.mk s ((rankedUnitsFor e topk (e.encode s)).take 20))
    let candidates :=
      (sents.map (fun s => rankedUnitsFor e topk (e.encode s))).foldl (scanCandidates maxc) []
    if candidates = [] then some (.multi sents perSent [] [])
    else
      let all := temporalUntruncated e sents topk candidates wmin wmax
      some (.multi sents perSent candidates (if 0 < k then all.take k else all))

/-- The `TemporalData` schema populated by `TemporalService.temporal_search`
on success (`schemas/temporal.py`). -/
structure TemporalDataE where
  sentences : List Str
  perSentence : List SentenceBlock
  candidate_videos : List Str
  results : List VideoResult
deriving DecidableEq

/-- The conversion step of `TemporalService.temporal_search` lines 97-113:
it reads `result_dict["results"]` entries as `video_id`/`frames`/... and
`result_dict["candidate_videos"]`.  On the single-sentence dictionary those
keys are absent (`unit_id`, `candidates`), so the conversion raises
`KeyError`, modelled as an error value. -/
def temporalServiceConvert : TemporalOut → Except Str TemporalDataE
  | .multi ss ps cs rs => .ok ⟨ss, ps, cs, rs⟩
  | .single _ _ _ => .error (r"KeyError").toList

/-- The hard-coded mock data of the `except` branch of
`TemporalService.temporal_search` (lines 115-141). -/
def mockTemporalData (query : Str) (limit : ℕ) : TemporalDataE :=
  let ss0 := splitSentencesDot query
  let ss := if ss0 = [] then [query] else ss0
  let mock : VideoResult :=
    { video_id := (r"L21_V001").toList,
      frames := [10, 25, 40],
      images := [(r"frame_10.jpg").toList, (r"frame_25.jpg").toList, (r"frame_40.jpg").toList],
      paths := [(r"raw/keyframes/Keyframes_L21/keyframes/L21_V001/010.jpg").toList,
                (r"raw/keyframes/Keyframes_L21/keyframes/L21_V001/025.jpg").toList,
                (r"raw/keyframes/Keyframes_L21/keyframes/L21_V001/040.jpg").toList],
      score := 85 / 100 }
  { sentences := ss, perSentence := [],
    candidate_videos := [(r"L21_V001").toList, (r"L21_V002").toList],
    results := [mock].take limit }

/-- `TemporalService.temporal_search`: run the engine, convert; on any
exception (engine assertion or `KeyError` during conversion) serve the mock
data. -/
def temporalServiceSearch (e : Engine) (query : Str) (limit topk maxc : ℕ)
    (wmin : ℤ) (wmax : Option ℤ) : TemporalDataE :=
  match temporalSearch e query limit topk maxc wmin wmax with
  | some o =>
    match temporalServiceConvert o with
    | .ok d => d
    | .error _ => mockTemporalData query limit
  | none => mockTemporalData query limit

/-- Exception kinds raised by the dispatching searches of
`faiss_processing_beit3.py`. -/
inductive SearchErr where
  | notImplemented
  | runtimeError
  | attributeError
  | valueError
deriving DecidableEq

/-- Opaque handle for an image probe source (path, URL, bytes, ...). -/
abbrev ImgSrc := ℕ

/-- The loaded `MyFaiss` engine with its per-model members.
`beit3Model = none` models `self.beit3_model is None` (checkpoint failed to
load).  `randFeat` is the oracle for the normalised
`np.random.randn(1, 1024)` draw of the dummy-feature fallback.  `nrm`
models the float L2 normalisation `q / (norm(q) + 1e-12)` (irrational in
general).  The image encoders return `none` when loading or decoding the
probe raises. -/
structure MultiEngine where
  translator : Str → Str
  clipEncode : Str → List ℚ
  longclipEncode : Str → List ℚ
  beit3Model : Option (Str → List ℚ)
  randFeat : List ℚ
  clipIndex : List (List ℚ)
  longclipIndex : List (List ℚ)
  beit3Index : List (List ℚ)
  id2img : List (ℤ × Str)
  nrm : List ℚ → List ℚ
  clipEncodeImage : ImgSrc → Option (List ℚ)
  longclipEncodeImage : ImgSrc → Option (List ℚ)

/-- Model name strings used by the dispatch. -/
def mClip : Str := (r"clip").toList

/-- Model name string for LongCLIP. -/
def mLongclip : Str := (r"longclip").toList

/-- Model name string for BEiT-3. -/
def mBeit3 : Str := (r"beit3").toList

/-- Model name string for CLIP2Video. -/
def mClip2video : Str := (r"clip2video").toList

/-- `MyFaiss.text_search` of `faiss_processing_beit3.py` (lines 330-386):
translate, dispatch the text encoder (for `beit3` with the model object
missing, normalised random dummy features are substituted silently),
dispatch the index, search, map ids to paths.  The `clip2video` branch
reads the never-assigned attribute `self.clip2video_model`, an
`AttributeError`; unknown models raise `NotImplementedError`. -/
def textSearchB3 (e : MultiEngine) (text : Str) (k : ℕ) (model : Str) :
    Except SearchErr (List ℚ × List ℤ × List Str) :=
  let t := e.translator text
  let feats? : Except SearchErr (List ℚ) :=
    if model = mClip then .ok (e.clipEncode t)
    else if model = mLongclip then .ok (e.longclipEncode t)
    else if model = mBeit3 then
      match e.beit3Model with
      | some enc => .ok (enc t)
      | none => .ok e.randFeat
    else if model = mClip2video then .error .attributeError
    else .error .notImplemented
  match feats? with
  | .error er => .error er
  | .ok f =>
    let vecs :=
      if model = mClip then e.clipIndex
      else if model = mLongclip then e.longclipIndex
      else e.beit3Index
    let res := eiSearch vecs f k
    .ok (res.map (fun r => r.1), res.map (fun r => r.2),
         (res.map (fun r => r.2)).filterMap (lookupZ e.id2img))

/-- Externally visible effects of `image_search`, in order. -/
inductive Eff where
  | reconstructEff (id : ℤ)
  | encodeEff
  | searchEff
deriving DecidableEq

/-- `MyFaiss.image_search` of `faiss_processing_beit3.py` (lines 240-328)
with an effect trace: choose the index (only `clip`/`longclip` supported),
validate that exactly one of `image_id`/`image_source` is given, then
either reconstruct the stored vector (the `except` fallback always raises
`RuntimeError` since `features_store` is never assigned) or load and
encode the probe, normalise, and search. -/
def imageSearchB3 (e : MultiEngine) (k : ℕ) (model : Str)
    (imageId : Option ℤ) (src : Option ImgSrc) :
    Except SearchErr (List ℚ × List ℤ × List Str) × List Eff :=
  let idx? : Option (List (List ℚ)) :=
    if model = mClip then some e.clipIndex
    else if model = mLongclip then some e.longclipIndex
    else none
  match idx? with
  | none => (.error .notImplemented, [])
  | some vecs =>
    match imageId, src with
    | none, none => (.error .valueError, [])
    | some _, some _ => (.error .valueError, [])
    | some i, none =>
      if 0 ≤ i ∧ i.toNat < vecs.length then
        let q := vecs.getD i.toNat []
        let res := eiSearch vecs (e.nrm q) k
        (.ok (res.map (fun r => r.1), res.map (fun r => r.2),
              (res.map (fun r => r.2)).filterMap (lookupZ e.id2img)),
         [.reconstructEff i, .searchEff])
      else (.error .runtimeError, [.reconstructEff i])
    | none, some s =>
      match (if model = mClip then e.clipEncodeImage s else e.longclipEncodeImage s) with
      | none => (.error .valueError, [.encodeEff])
      | some q =>
        let res := eiSearch vecs (e.nrm q) k
        (.ok (res.map (fun r => r.1), res.map (fun r => r.2),
              (res.map (fun r => r.2)).filterMap (lookupZ e.id2img)),
         [.encodeEff, .searchEff])

/-- The closed set of single-model types of `schemas/common.py` reaching the
single-model branch of `SearchService.text_search` (`ALL` dispatches to the
fusion path instead). -/
inductive ModelT where
  | clip
  | longclip
  | clip2video
  | beit3
deriving DecidableEq

/-- The similarity floor of `SearchService.text_search` lines 135-140. -/
def floorOf : ModelT → ℚ
  | .longclip => 1
  | .clip2video => 1
  | .beit3 => 2 / 5
  | .clip => 1 / 5

/-- The `model_type.value` string of a model. -/
def modelName : ModelT → Str
  | .clip => mClip
  | .longclip => mLongclip
  | .clip2video => mClip2video
  | .beit3 => mBeit3

/-- Python `f"{i}"` for an integer. -/
def intStr (i : ℤ) : Str :=
  if i < 0 then '-' :: Nat.toDigits 10 i.natAbs else Nat.toDigits 10 i.toNat

/-- A `SearchResult` as built by `SearchService` (only the fields the
verified properties mention; `metaFlag` records whether the metadata
service replaced the result, which preserves `score` and `link` verbatim
in the source). -/
structure SR where
  image_id : Str
  score : ℚ
  link : Str
  metaFlag : Bool
deriving DecidableEq

/-- Python `zip` over three lists (truncates to the shortest). -/
def zip3 {α β γ : Type} : List α → List β → List γ → List (α × β × γ)
  | a :: as, b :: bs, c :: cs => (a, b, c) :: zip3 as bs cs
  | _, _, _ => []

/-- One `SearchResult` from a `(score, idx, path)` row. -/
def srOf (model : ModelT) (row : ℚ × ℤ × Str) : SR :=
  { image_id := modelName model ++ '_' :: intStr row.2.1,
    score := row.1, link := row.2.2, metaFlag := false }

/-- The shared append-then-break deduplication loop of
`SearchService._remove_duplicates` (keyed on `image_id`) and of the fusion
paths (keyed on `link`): keep the first element per key, stop once
`len(unique_results) >= limit` holds after an append. -/
def dedupByKey {α : Type} (key : α → Str) (limit : ℕ) (seen : List Str)
    (acc : List α) : List α → List α
  | [] => acc.reverse
  | r :: rest =>
    if key r ∈ seen then dedupByKey key limit seen acc rest
    else if limit ≤ acc.length + 1 then (r :: acc).reverse
    else dedupByKey key limit (key r :: seen) (r :: acc) rest

/-- `SearchService._enhance_results_with_metadata`: each result either
passes through or is rebuilt with extra metadata; `score` and `link` are
copied verbatim in both branches, recorded here by `metaFlag`. -/
def enhanceResults (meta : Str → Option Unit) (rs : List SR) : List SR :=
  rs.map (fun r =>
    match meta r.image_id with
    | some _ => { r with metaFlag := true }
    | none => r)

/-- The body of the `try` block of `SearchService.text_search`
(lines 130-190), starting from the `(scores, idxs, image_paths)` triple the
engine returned without raising: keep rows with a truthy path and score at
least the model's floor, build results, return `[]` when none survive,
otherwise deduplicate by `image_id` with the `limit` break and enhance.
The surrounding exception handlers are `serviceTextSearchFull` below. -/
def serviceTextSearch (model : ModelT) (scores : List ℚ) (idxs : List ℤ)
    (paths : List Str) (limit : ℕ) (meta : Str → Option Unit) : List SR :=
  let rows := zip3 scores idxs paths
  let results := (rows.filter (fun row => row.2.2 ≠ [] ∧ floorOf model ≤ row.1)).map (srOf model)
  if results = [] then []
  else enhanceResults meta (dedupByKey (fun r => r.image_id) limit [] [] results)

/-- The fusion tail of `SearchService._search_all_models` (lines 341-356):
stable sort of all collected hits by descending score, then first-per-link
deduplication with the append-then-break `limit` test. -/
def fuseAllModels (allResults : List SR) (limit : ℕ) : List SR :=
  dedupByKey (fun r => r.link) limit [] [] (sortDescBy (fun r => r.score) allResults)

/-- Sentence separators of `_truncate_text_for_clip`
(`faiss_processing.py`). -/
def clipPunct : List Char := ['.', '!', '?', ':', ';']

/-- The accumulating sentence splitter of `_truncate_text_for_clip`
(lines 330-339): flush the stripped current chunk at each separator
(separator kept in the chunk), then keep a non-empty stripped remainder. -/
def splitSentencesPunctAux : Str → Str → List Str → List Str
  | [], cur, acc =>
    if stripStr cur.reverse ≠ [] then acc ++ [stripStr cur.reverse] else acc
  | c :: cs, cur, acc =>
    if c ∈ clipPunct then splitSentencesPunctAux cs [] (acc ++ [stripStr (c :: cur).reverse])
    else splitSentencesPunctAux cs (c :: cur) acc

/-- Sentence split of `_truncate_text_for_clip`. -/
def splitSentencesPunct (t : Str) : List Str := splitSentencesPunctAux t [] []

/-- The final fallback of `_truncate_text_for_clip` (lines 355-366):
keep the leading `int(max_tokens*2.4)` and trailing `int(max_tokens*1.6)`
characters around an ellipsis. -/
def truncFallback (maxTokens : ℕ) (text : Str) : Str :=
  let firstPart := maxTokens * 24 / 10
  let lastPart := maxTokens * 16 / 10
  if maxTokens * 4 < text.length then
    if firstPart + lastPart < text.length then
      text.take firstPart ++ ['.', '.', '.'] ++ takeLast lastPart text
    else text
  else text

/-- `MyFaiss._truncate_text_for_clip` (`faiss_processing.py` lines 318-366).
Note the order of the sentence-based attempts in the source: the
first-plus-last combination is tried before the first sentence alone. -/
def truncateTextForClip (maxTokens : ℕ) (text : Str) : Str :=
  if text.length ≤ maxTokens * 4 then text
  else
    let sentences := splitSentencesPunct text
    let res : Option Str :=
      if 1 < sentences.length then
        let first := sentences.headD []
        let last := sentences.getLastD []
        if (first ++ ' ' :: last).length ≤ maxTokens * 4 then some (first ++ ' ' :: last)
        else if first.length ≤ maxTokens * 4 then some first
        else none
      else none
    match res with
    | some s => s
    | none => truncFallback maxTokens text

/-- The truncation preference order as the claim states it: the first
sentence alone is preferred over the first-plus-last combination. -/
def claimTruncate (maxTokens : ℕ) (text : Str) : Str :=
  if text.length ≤ maxTokens * 4 then text
  else
    let sentences := splitSentencesPunct text
    let first := sentences.headD []
    let last := sentences.getLastD []
    if 1 < sentences.length ∧ first.length ≤ maxTokens * 4 then first
    else if 1 < sentences.length ∧ (first ++ ' ' :: last).length ≤ maxTokens * 4 then
      first ++ ' ' :: last
    else text.take (maxTokens * 24 / 10) ++ ['.', '.', '.'] ++ takeLast (maxTokens * 16 / 10) text

/-- The truncation described with the preference order the code actually
implements (first-plus-last, then first alone, then head/ellipsis/tail). -/
def amendTruncate (maxTokens : ℕ) (text : Str) : Str :=
  if text.length ≤ maxTokens * 4 then text
  else
    let sentences := splitSentencesPunct text
    let first := sentences.headD []
    let last := sentences.getLastD []
    if 1 < sentences.length ∧ (first ++ ' ' :: last).length ≤ maxTokens * 4 then
      first ++ ' ' :: last
    else if 1 < sentences.length ∧ first.length ≤ maxTokens * 4 then first
    else text.take (maxTokens * 24 / 10) ++ ['.', '.', '.'] ++ takeLast (maxTokens * 16 / 10) text

/-- The CLIP tokenisation retry of `faiss_processing.py` `text_search`
(lines 391-405): tokenise the truncated text; on failure hard-truncate to
the first 50 characters and retry once (a second failure propagates). -/
def clipEncodeRetry {F : Type} (tok : Str → Option F) (text : Str) : Option F :=
  let t := truncateTextForClip 77 text
  match tok t with
  | some f => some f
  | none => tok (t.take 50)

/-- A concrete two-keyframe corpus used to exercise the temporal pipeline:
identity translator, a constant unit encoder, a one-vector index whose id 0
maps to frame 001 of video `L1_V001`, and a two-frame feature matrix for
that video. -/
def E1 : Engine :=
  { translator := fun t => t,
    encode := fun _ => [1],
    indexVecs := [[1]],
    id2img := [(0, (r"kf/Keyframes_L1/keyframes/L1_V001/001.jpg").toList)],
    videoFeats := fun v =>
      if v = (r"L1_V001").toList then some [[1], [1]] else none }

/-- A two-sentence query for `E1`. -/
def txt1 : Str := (r"a. b").toList

/-- A one-sentence query for `E1`. -/
def txtC6 : Str := (r"hello").toList

/-- The temporal output of `E1` on the two-sentence query with `k = 5`. -/
def t1out : Option TemporalOut := temporalSearch E1 txt1 5 3 10 1 none

/-- Sentences component of `t1out`. -/
def t1ss : List Str :=
  match t1out with
  | some (.multi ss _ _ _) => ss
  | _ => []

/-- Per-sentence component of `t1out`. -/
def t1ps : List SentenceBlock :=
  match t1out with
  | some (.multi _ ps _ _) => ps
  | _ => []

/-- Candidate-videos component of `t1out`. -/
def t1cs : List Str :=
  match t1out with
  | some (.multi _ _ cs _) => cs
  | _ => []

/-- Results component of `t1out`. -/
def t1rs : List VideoResult :=
  match t1out with
  | some (.multi _ _ _ rs) => rs
  | _ => []

/-- The first result of `t1out`. -/
def t1r : VideoResult := t1rs.headD ⟨[], [], [], [], 0⟩

/-- The temporal output of `E1` on the two-sentence query with `k = 0`. -/
def t0out : Option TemporalOut := temporalSearch E1 txt1 0 3 10 1 none

/-- Sentences component of `t0out`. -/
def t0ss : List Str :=
  match t0out with
  | some (.multi ss _ _ _) => ss
  | _ => []

/-- Per-sentence component of `t0out`. -/
def t0ps : List SentenceBlock :=
  match t0out with
  | some (.multi _ ps _ _) => ps
  | _ => []

/-- Candidate-videos component of `t0out`. -/
def t0cs : List Str :=
  match t0out with
  | some (.multi _ _ cs _) => cs
  | _ => []

/-- Results component of `t0out`. -/
def t0rs : List VideoResult :=
  match t0out with
  | some (.multi _ _ _ rs) => rs
  | _ => []

/-- The single-sentence temporal output of `E1` (the fallback branch). -/
def tC6out : TemporalOut :=
  (temporalSearch E1 txtC6 5 3 10 1 none).getD (.multi [] [] [] [])

/-- A concrete loaded engine whose BEiT-3 model object is missing
(`self.beit3_model is None`). -/
def E2 : MultiEngine :=
  { translator := fun t => t,
    clipEncode := fun _ => [1],
    longclipEncode := fun _ => [1],
    beit3Model := none,
    randFeat := [1],
    clipIndex := [[1]],
    longclipIndex := [[1]],
    beit3Index := [[1]],
    id2img := [(0, (r"kf/Keyframes_L1/keyframes/L1_V001/001.jpg").toList)],
    nrm := fun q => q,
    clipEncodeImage := fun _ => some [1],
    longclipEncodeImage := fun _ => some [1] }

/-- A tokeniser oracle that always fails (for exercising the CLIP retry). -/
def tokNone : Str → Option Unit := fun _ => none

/-- A 403-character text whose first and last sentences together fit the
budget while the text itself does not. -/
def txt9 : Str :=
  List.replicate 100 'a' ++ '.' ::
    (List.replicate 200 'b' ++ '.' :: (List.replicate 100 'c' ++ ['.']))

/-- A concrete anchor hit for frame 003 of `L1_V001`. -/
def u5 : RankedUnit :=
  { video_id := some (r"L1_V001").toList,
    image_path := some (r"kf/Keyframes_L1/keyframes/L1_V001/003.jpg").toList,
    faiss_id := 2, score := 1 }

/-- Concrete fused hits: two models returning the same asset path with
different scores, plus a second asset. -/
def c8a : SR := ⟨(r"clip_0").toList, 1, (r"p1.jpg").toList, false⟩

/-- Lower-scored duplicate of `c8a`'s asset from another model. -/
def c8b : SR := ⟨(r"beit3_0").toList, 1 / 2, (r"p1.jpg").toList, false⟩

/-- A second asset. -/
def c8c : SR := ⟨(r"clip_1").toList, 3 / 4, (r"p2.jpg").toList, false⟩

/-- First result of a concrete single-model service search. -/
def c7r : SR :=
  (serviceTextSearch .clip [1 / 2] [0]
    [(r"kf/Keyframes_L1/keyframes/L1_V001/001.jpg").toList] 5 (fun _ => none)).headD
    ⟨[], 0, [], false⟩

/-- `SearchService._mock_search_results(limit, search_type, query)`
(lines 886-906): up to `min(limit, 10)` fabricated hits with scores
`0.9 - 0.1 * i` and links `/mock/image_{i}.jpg`. -/
def mockSearchResults (searchType : Str) (limit : ℕ) : List SR :=
  (List.range (min limit 10)).map (fun i =>
    { image_id := (r"mock_").toList ++ searchType ++ '_' :: intStr (i : ℤ),
      score := 9 / 10 - (i : ℚ) * (1 / 10),
      link := (r"/mock/image_").toList ++ intStr (i : ℤ) ++ dotJpg,
      metaFlag := false })

/-- `SearchService.text_search` for a single model with the engine loaded,
including its exception handlers (lines 91-205): if the engine call raises,
the handlers return `_mock_search_results`.  The `except ValueError` branch
returning `[]` fires only on a ValueError whose message contains "not
available"; none of the engine's exception kinds here (NotImplementedError,
AttributeError, RuntimeError) is a ValueError, so every engine exception
lands in the mock fallback. -/
def serviceTextSearchFull (e : MultiEngine) (model : ModelT) (query : Str)
    (limit : ℕ) (meta : Str → Option Unit) : List SR :=
  match textSearchB3 e query limit (modelName model) with
  | .ok res => serviceTextSearch model res.1 res.2.1 res.2.2 limit meta
  | .error _ => mockSearchResults (r"text").toList limit

/-- A concrete loaded-engine service search over `E2` with model CLIP. -/
def c7full : List SR :=
  serviceTextSearchFull E2 ModelT.clip (r"a red car").toList 5 (fun _ => none)

/-- The first result of `c7full`. -/
def c7s : SR := c7full.headD ⟨[], 0, [], false⟩

/-- The successful engine triple behind `c7full`. -/
def c7out : List ℚ × List ℤ × List Str :=
  (textSearchB3 E2 (r"a red car").toList 5 mClip).toOption.getD ([], [], [])

/-- The first hit of the loaded-engine `clip2video` service search over
`E2` (which lands in the mock fallback). -/
def c7m : SR :=
  (serviceTextSearchFull E2 ModelT.clip2video (r"a red car").toList 5
    (fun _ => none)).headD ⟨[], 0, [], false⟩


/-- The row index a hit contributes, as the code computes it: a missing or
empty path, or an unparseable file stem, yields `none`. -/
def hitRowOf (u : RankedUnit) : Option ℤ :=
  match u.image_path with
  | none => none
  | some p => if p = [] then none else parseFrameRow p

/-- Reading an index-mapped list at an in-range position. -/
theorem getD_map_range {α : Type} (N t : ℕ) (f : ℕ → α) (d : α) (h : t < N) :
    ((List.range N).map f).getD t d = f t := by
  have hl : t < ((List.range N).map f).length := by simpa using h
  rw [List.getD_eq_getElem _ d hl]
  simp

/-- Reading a replicated zero vector at an in-range position. -/
theorem getD_replicate0 (N t : ℕ) (h : t < N) :
    (List.replicate N (0 : ℚ)).getD t 0 = 0 := by
  have hl : t < (List.replicate N (0 : ℚ)).length := by simpa using h
  rw [List.getD_eq_getElem _ _ hl]
  simp

/-- A fold of `max` only grows its accumulator. -/
theorem le_foldl_max (l : List ℚ) (a : ℚ) : a ≤ l.foldl max a := by
  induction l generalizing a with
  | nil => simp
  | cons b l ih => exact le_trans (le_max_left a b) (ih (max a b))

/-- Every member is below a `max` fold. -/
theorem mem_le_foldl_max (l : List ℚ) (a x : ℚ) (hx : x ∈ l) : x ≤ l.foldl max a := by
  induction l generalizing a with
  | nil => simp at hx
  | cons b l ih =>
    rcases List.mem_cons.1 hx with rfl | hx
    · exact le_trans (le_max_right a x) (le_foldl_max l (max a x))
    · exact ih (max a b) hx

/-- A fold of `min` only shrinks its accumulator. -/
theorem foldl_min_le (l : List ℚ) (a : ℚ) : l.foldl min a ≤ a := by
  induction l generalizing a with
  | nil => simp
  | cons b l ih => exact le_trans (ih (min a b)) (min_le_left a b)

/-- A `min` fold is below every member. -/
theorem foldl_min_le_mem (l : List ℚ) (a x : ℚ) (hx : x ∈ l) : l.foldl min a ≤ x := by
  induction l generalizing a with
  | nil => simp at hx
  | cons b l ih =>
    rcases List.mem_cons.1 hx with rfl | hx
    · exact le_trans (foldl_min_le l (min a x)) (min_le_right a x)
    · exact ih (min a b) hx

/-- `listMin` bounds every member from below. -/
theorem listMin_le_of_mem (s : List ℚ) (x : ℚ) (hx : x ∈ s) : listMin s ≤ x :=
  foldl_min_le_mem s (s.headD 0) x hx

/-- `listMax` bounds every member from above. -/
theorem le_listMax_of_mem (s : List ℚ) (x : ℚ) (hx : x ∈ s) : x ≤ listMax s :=
  mem_le_foldl_max s (s.headD 0) x hx

/-- Min-max normalisation preserves the vector length. -/
theorem mmNorm_length (s : List ℚ) : (mmNorm s).length = s.length := by
  simp only [mmNorm]
  split <;> simp

/-- C4: in `temporal_search` step 3, per-sentence min-max normalisation
maps every similarity vector into `[0, 1]`; when `max - min < 1e-6` the
whole normalised vector is zero, and otherwise it is
`(S - min) / (max - min)` elementwise. -/
theorem minmax_normalization_bounds (s : List ℚ) (_hs : s ≠ []) :
    (∀ y ∈ mmNorm s, 0 ≤ y ∧ y ≤ 1) ∧
    (listMax s - listMin s < 1 / 1000000 → mmNorm s = List.replicate s.length 0) ∧
    (1 / 1000000 ≤ listMax s - listMin s →
      mmNorm s = s.map (fun x => (x - listMin s) / (listMax s - listMin s))) := by
  refine ⟨?_, ?_, ?_⟩
  · intro y hy
    simp only [mmNorm] at hy
    split at hy
    · have h0 := List.eq_of_mem_replicate hy
      subst h0
      norm_num
    · next hcond =>
      obtain ⟨x, hx, rfl⟩ := List.mem_map.1 hy
      have hminx := listMin_le_of_mem s x hx
      have hmaxx := le_listMax_of_mem s x hx
      have hpos : 0 < listMax s - listMin s := by
        have h6 : (1 : ℚ) / 1000000 ≤ listMax s - listMin s := le_of_not_lt hcond
        linarith
      constructor
      · exact div_nonneg (by linarith) (le_of_lt hpos)
      · rw [div_le_one hpos]
        linarith
  · intro h
    simp only [mmNorm]
    rw [if_pos h]
  · intro h
    simp only [mmNorm]
    rw [if_neg (not_lt.2 h)]

/-- Witness for C4: the theorem applied to the vector `[0, 1]`, at its
member `1`. -/
theorem minmax_normalization_bounds_witness : (0 : ℚ) ≤ 1 ∧ (1 : ℚ) ≤ 1 :=
  (minmax_normalization_bounds [0, 1] (by decide)).1 1 (by decide)

/-- `mapWithIdx` preserves the vector length. -/
theorem mapWithIdx_length (f : ℕ → ℚ → ℚ) (b : List ℚ) :
    (mapWithIdx f b).length = b.length := by
  simp [mapWithIdx]

/-- Reading a `mapWithIdx` result at an in-range position. -/
theorem mapWithIdx_getD (f : ℕ → ℚ → ℚ) (b : List ℚ) (t : ℕ) (h : t < b.length) :
    (mapWithIdx f b).getD t 0 = f t (b.getD t 0) := by
  unfold mapWithIdx
  exact getD_map_range b.length t _ 0 h

/-- One anchor-hit update preserves the vector length. -/
theorem applyAnchorHit_length (N : ℕ) (b : List ℚ) (u : RankedUnit) :
    (applyAnchorHit N b u).length = b.length := by
  unfold applyAnchorHit
  split
  · rfl
  · split
    · rfl
    · split
      · rfl
      · split
        · exact mapWithIdx_length _ b
        · rfl

/-- The anchor fold preserves the vector length. -/
theorem anchorFold_length (N : ℕ) :
    ∀ (us : List RankedUnit) (b : List ℚ),
      (us.foldl (applyAnchorHit N) b).length = b.length
  | [], _ => rfl
  | u :: us, b => by
    rw [List.foldl_cons, anchorFold_length N us, applyAnchorHit_length]

/-- The anchor bonus vector has one entry per frame. -/
theorem anchorBonus_length (units : List RankedUnit) (vid : Str) (N : ℕ) :
    (anchorBonus units vid N).length = N := by
  unfold anchorBonus
  rw [anchorFold_length]
  simp

/-- One anchor-hit update, read at position `t`, is the claim's single-hit
maximum step, provided the hit's parsed row lies in `[0, N)`. -/
theorem applyAnchorHit_getD (N : ℕ) (b : List ℚ) (u : RankedUnit) (t : ℕ)
    (hb : b.length = N) (ht : t < N)
    (hr : ∀ j, hitRowOf u = some j → 0 ≤ j ∧ j < (N : ℤ)) :
    (applyAnchorHit N b u).getD t 0 = claimBonusStep t (b.getD t 0) u := by
  unfold applyAnchorHit claimBonusStep
  cases h : u.image_path with
  | none => simp only [h]
  | some p =>
    simp only [h]
    by_cases hp : p = []
    · rw [if_pos hp, if_pos hp]
    · rw [if_neg hp, if_neg hp]
      cases hj : parseFrameRow p with
      | none => simp only []
      | some j =>
        simp only []
        have hrange : 0 ≤ j ∧ j < (N : ℤ) := by
          apply hr
          simp [hitRowOf, h, hp, hj]
        rw [if_pos hrange]
        rw [mapWithIdx_getD _ b t (hb ▸ ht)]

/-- The anchor fold read at position `t` equals the claim's per-hit maximum
fold, provided every used hit parses into range. -/
theorem anchorFoldD (N t : ℕ) (ht : t < N) :
    ∀ (us : List RankedUnit) (b : List ℚ), b.length = N →
      (∀ u ∈ us, ∀ j, hitRowOf u = some j → 0 ≤ j ∧ j < (N : ℤ)) →
      (us.foldl (applyAnchorHit N) b).getD t 0 = us.foldl (claimBonusStep t) (b.getD t 0)
  | [], _, _, _ => rfl
  | u :: us, b, hb, hu => by
    rw [List.foldl_cons, List.foldl_cons]
    rw [anchorFoldD N t ht us (applyAnchorHit N b u)
        (by rw [applyAnchorHit_length, hb])
        (fun v hv => hu v (List.mem_cons_of_mem _ hv))]
    rw [applyAnchorHit_getD N b u t hb ht (hu u (List.mem_cons_self _ _))]

/-- C5: the anchor bonus for a sentence over a candidate video is built from
at most the first five of that sentence's stored hits belonging to the
video; at every frame `t` it is the iterated maximum (starting from zero)
of `0.10 * (1 - |t - j| / 3)` over the used hits whose paths parse to a row
`j` within distance 2 of `t`, and unparseable hits contribute nothing. -/
theorem anchor_bonus_top5_window (units : List RankedUnit) (vid : Str) (N : ℕ)
    (hr : ∀ u ∈ (units.filter (fun u => u.video_id = some vid)).take 5,
        ∀ j, hitRowOf u = some j → 0 ≤ j ∧ j < (N : ℤ)) :
    (anchorBonus units vid N).length = N ∧
    ∀ t, t < N →
      (anchorBonus units vid N).getD t 0 =
        ((units.filter (fun u => u.video_id = some vid)).take 5).foldl (claimBonusStep t) 0 := by
  refine ⟨anchorBonus_length units vid N, ?_⟩
  intro t ht
  unfold anchorBonus
  rw [anchorFoldD N t ht _ _ (by simp) hr]
  rw [getD_replicate0 N t ht]

/-- Witness for C5: the theorem applied to the single hit `u5` (frame 003 of
`L1_V001`, row `j = 2`) over a five-frame video, read at frame 2. -/
theorem anchor_bonus_top5_window_witness :
    (anchorBonus [u5] (r"L1_V001").toList 5).getD 2 0 =
      (([u5].filter (fun u => u.video_id = some (r"L1_V001").toList)).take 5).foldl
        (claimBonusStep 2) 0 :=
  (anchor_bonus_top5_window [u5] (r"L1_V001").toList 5 (by
    intro u hu j hj
    have hlist : (([u5].filter (fun u => u.video_id = some (r"L1_V001").toList)).take 5) = [u5] := by
      decide
    rw [hlist] at hu
    have hu5 : u = u5 := by
      simpa using hu
    subst hu5
    have hj2 : j = 2 := by
      have : hitRowOf u5 = some 2 := by decide
      rw [this] at hj
      exact (Option.some.inj hj).symm
    subst hj2
    decide)).2 2 (by decide)

/-- The helper of `argmaxIdx` returns an index below `i + length`. -/
theorem argmaxAux_lt (xs : List ℚ) :
    ∀ (i b : ℕ) (v : ℚ), b < i → argmaxAux xs i b v < i + xs.length := by
  induction xs with
  | nil =>
    intro i b v h
    simpa [argmaxAux] using h
  | cons x xs ih =>
    intro i b v h
    simp only [argmaxAux, List.length_cons]
    split
    · have h2 := ih (i + 1) i x (by omega)
      omega
    · have h2 := ih (i + 1) b v (by omega)
      omega

/-- `argmaxIdx` of a non-empty list is in range. -/
theorem argmaxIdx_lt (l : List ℚ) (h : l ≠ []) : argmaxIdx l < l.length := by
  cases l with
  | nil => exact absurd rfl h
  | cons x xs =>
    have h2 := argmaxAux_lt xs 1 0 x (by omega)
    simp only [argmaxIdx, List.length_cons]
    omega

/-- A masked row has one entry per frame. -/
theorem maskedRow_length (N : ℕ) (sn : List ℚ) (wmin : ℤ) (wmax : Option ℤ) (j : ℕ) :
    (maskedRow N sn wmin wmax j).length = N := by
  simp [maskedRow]

/-- A set back-pointer always records an admissible, in-range transition:
the recorded column attains the row maximum, which exceeds `-1e8` only if
that cell was not masked to `-1e9`. -/
theorem ptrEntry_valid (N : ℕ) (sn : List ℚ) (wmin : ℤ) (wmax : Option ℤ) (j c : ℕ)
    (hN : 0 < N) (h : ptrEntry N sn wmin wmax j = some c) :
    validGap wmin wmax j c = true ∧ c < N := by
  simp only [ptrEntry] at h
  have hlen : (maskedRow N sn wmin wmax j).length = N := maskedRow_length N sn wmin wmax j
  have hne : maskedRow N sn wmin wmax j ≠ [] := by
    intro hnil
    rw [hnil] at hlen
    simp at hlen
    omega
  have hc : argmaxIdx (maskedRow N sn wmin wmax j) < N := by
    have h2 := argmaxIdx_lt _ hne
    rw [hlen] at h2
    exact h2
  split at h
  · next hcond =>
    have hceq : argmaxIdx (maskedRow N sn wmin wmax j) = c := Option.some.inj h
    rw [hceq] at hc hcond
    refine ⟨?_, hc⟩
    by_contra hv
    have hfalse : validGap wmin wmax j c = false := by
      cases hvg : validGap wmin wmax j c
      · rfl
      · exact absurd hvg hv
    have hval : (maskedRow N sn wmin wmax j).getD c 0 = negInfQ := by
      unfold maskedRow
      rw [getD_map_range N c _ 0 hc, hfalse]
      simp
    rw [hval] at hcond
    have : negInfQ < feasThreshQ := by
      norm_num [negInfQ, feasThreshQ]
    linarith
  · exact absurd h (by simp)

/-- Reading a pointer table at `cur` succeeds only in range, and then reads
the row's `ptrEntry`. -/
theorem ptrTable_entry (N : ℕ) (sn : List ℚ) (wmin : ℤ) (wmax : Option ℤ) (cur nxt : ℕ)
    (h : (ptrTable N sn wmin wmax).getD cur none = some nxt) :
    cur < N ∧ ptrEntry N sn wmin wmax cur = some nxt := by
  by_cases hc : cur < N
  · refine ⟨hc, ?_⟩
    unfold ptrTable at h
    rw [getD_map_range N cur _ none hc] at h
    exact h
  · exfalso
    unfold ptrTable at h
    rw [List.getD_eq_default] at h
    · exact absurd h (by simp)
    · simp
      omega

/-- Every pointer table produced by the DP recursion is a `ptrTable` for
some successor-score vector. -/
theorem dpRun_tables (N : ℕ) (wmin : ℤ) (wmax : Option ℤ) :
    ∀ (work : List (List ℚ)) (tbl : List (Option ℕ)),
      tbl ∈ (dpRun N wmin wmax work).2 → ∃ sn, tbl = ptrTable N sn wmin wmax
  | [], tbl, h => by simp [dpRun] at h
  | [w], tbl, h => by simp [dpRun] at h
  | w :: w' :: rest, tbl, h => by
    simp only [dpRun, List.mem_cons] at h
    rcases h with h | h
    · exact ⟨(dpRun N wmin wmax (w' :: rest)).1, h⟩
    · exact dpRun_tables N wmin wmax (w' :: rest) tbl h

/-- The first DP score layer has one entry per frame. -/
theorem dpRun_fst_length (N : ℕ) (wmin : ℤ) (wmax : Option ℤ) :
    ∀ (work : List (List ℚ)), work ≠ [] → (∀ w ∈ work, w.length = N) →
      (dpRun N wmin wmax work).1.length = N
  | [], h, _ => absurd rfl h
  | [w], _, hw => by
    simp only [dpRun]
    exact hw w (by simp)
  | _ :: _ :: _, _, _ => by
    simp [dpRun, dpStepScores]

/-- A reconstructed path starts at the requested frame, has one frame per
pointer table plus one, stays inside `[0, N)` and each consecutive step is
an admissible gap. -/
theorem backtrack_props (N : ℕ) (wmin : ℤ) (wmax : Option ℤ) :
    ∀ (tables : List (List (Option ℕ))) (cur : ℕ) (frames : List ℕ),
      (∀ tbl ∈ tables, ∃ sn, tbl = ptrTable N sn wmin wmax) → 0 < N → cur < N →
      backtrack tables cur = some frames →
      frames.head? = some cur ∧ frames.length = tables.length + 1 ∧
      (∀ f ∈ frames, f < N) ∧ frames.Chain' (fun a b => validGap wmin wmax a b = true)
  | [], cur, frames, _, _, hcur, h => by
    simp only [backtrack, Option.some.injEq] at h
    subst h
    refine ⟨rfl, rfl, ?_, by simp⟩
    intro f hf
    simp only [List.mem_singleton] at hf
    omega
  | tbl :: rest, cur, frames, htab, hN, hcur, h => by
    simp only [backtrack] at h
    cases hget : tbl.getD cur none with
    | none =>
      rw [hget] at h
      exact absurd h (by simp)
    | some nxt =>
      rw [hget] at h
      obtain ⟨fr, hfr, hfr2⟩ := Option.map_eq_some'.1 h
      subst hfr2
      obtain ⟨sn, rfl⟩ := htab tbl (List.mem_cons_self _ _)
      obtain ⟨hcurN, hentry⟩ := ptrTable_entry N sn wmin wmax cur nxt hget
      obtain ⟨hvalid, hnxtN⟩ := ptrEntry_valid N sn wmin wmax cur nxt hN hentry
      obtain ⟨hhead, hlen, hmem, hchain⟩ :=
        backtrack_props N wmin wmax rest nxt fr
          (fun t ht => htab t (List.mem_cons_of_mem _ ht)) hN hnxtN hfr
      refine ⟨rfl, by simp [hlen], ?_, ?_⟩
      · intro f hf
        rcases List.mem_cons.1 hf with rfl | hf
        · exact hcurN
        · exact hmem f hf
      · rw [List.chain'_cons']
        refine ⟨?_, hchain⟩
        intro b hb
        rw [hhead] at hb
        simp only [Option.mem_def, Option.some.injEq] at hb
        subst hb
        exact hvalid

/-- Every layer of the work stack has one entry per frame of the video. -/
theorem workStack_all_length (feats textFeats : List (List ℚ))
    (perUnits : List (List RankedUnit)) (vid : Str) :
    ∀ w ∈ workStack feats textFeats perUnits vid, w.length = feats.length := by
  intro w hw
  unfold workStack at hw
  obtain ⟨i, hi, rfl⟩ := List.mem_iff_getElem.1 hw
  simp only [List.getElem_zipWith, List.getElem_map]
  simp [mmNorm_length, anchorBonus_length]

/-- The work stack has one layer per sentence when the per-sentence inputs
agree in length. -/
theorem workStack_length (feats textFeats : List (List ℚ))
    (perUnits : List (List RankedUnit)) (vid : Str) :
    (workStack feats textFeats perUnits vid).length = min textFeats.length perUnits.length := by
  unfold workStack
  simp

/-- `validGap` unfolded to its arithmetic meaning. -/
theorem validGap_iff (wmin : ℤ) (wmax : Option ℤ) (j c : ℕ) :
    validGap wmin wmax j c = true ↔
      (wmin ≤ (c : ℤ) - (j : ℤ) ∧ ∀ w ∈ wmax, (c : ℤ) - (j : ℤ) ≤ w) := by
  cases wmax <;> simp [validGap, Option.mem_def]

/-- A successful per-video DP run yields frames for the right video, one
frame per sentence, all in `[0, F_v)`, and every consecutive pair an
admissible gap. -/
theorem processVideo_props (feats textFeats : List (List ℚ))
    (perUnits : List (List RankedUnit)) (vid : Str) (M : ℕ) (wmin : ℤ) (wmax : Option ℤ)
    (r : VideoResult) (hM : 2 ≤ M) (hTF : textFeats.length = M) (hPU : perUnits.length = M)
    (h : processVideo feats textFeats perUnits vid M wmin wmax = some r) :
    r.video_id = vid ∧ r.frames.length = M ∧ (∀ f ∈ r.frames, f < feats.length) ∧
    r.frames.Chain' (fun a b => validGap wmin wmax a b = true) := by
  unfold processVideo at h
  by_cases h0 : feats.length = 0
  · rw [if_pos h0] at h
    exact absurd h (by simp)
  · rw [if_neg h0] at h
    by_cases h1 : feats.length < M
    · rw [if_pos h1] at h
      exact absurd h (by simp)
    · rw [if_neg h1] at h
      simp only [] at h
      have hN : 0 < feats.length := by omega
      have hwlen : (workStack feats textFeats perUnits vid).length = M := by
        rw [workStack_length, hTF, hPU]
        simp
      have hwne : workStack feats textFeats perUnits vid ≠ [] := by
        intro hnil
        rw [hnil] at hwlen
        simp at hwlen
        omega
      have hdp1 : (dpRun feats.length wmin wmax (workStack feats textFeats perUnits vid)).1.length
          = feats.length :=
        dpRun_fst_length feats.length wmin wmax _ hwne (workStack_all_length feats textFeats perUnits vid)
      have hdp1ne : (dpRun feats.length wmin wmax (workStack feats textFeats perUnits vid)).1 ≠ [] := by
        intro hnil
        rw [hnil] at hdp1
        simp at hdp1
        omega
      have hf0 : argmaxIdx (dpRun feats.length wmin wmax (workStack feats textFeats perUnits vid)).1
          < feats.length := by
        have h2 := argmaxIdx_lt _ hdp1ne
        rw [hdp1] at h2
        exact h2
      cases hbt : backtrack (dpRun feats.length wmin wmax (workStack feats textFeats perUnits vid)).2
          (argmaxIdx (dpRun feats.length wmin wmax (workStack feats textFeats perUnits vid)).1) with
      | none =>
        rw [hbt] at h
        simp at h
      | some frames =>
        rw [hbt] at h
        simp only [] at h
        obtain ⟨hhead, hlen, hmem, hchain⟩ :=
          backtrack_props feats.length wmin wmax _ _ frames
            (dpRun_tables feats.length wmin wmax _) hN hf0 hbt
        by_cases hfl : frames.length = M
        · rw [if_pos hfl] at h
          have hrec := Option.some.inj h
          subst hrec
          exact ⟨rfl, hfl, hmem, hchain⟩
        · rw [if_neg hfl] at h
          exact absurd h (by simp)

/-- Insertion keeps exactly the old and the new elements. -/
theorem mem_insertDescBy {α : Type} (key : α → ℚ) (x a : α) :
    ∀ (l : List α), a ∈ insertDescBy key x l ↔ a = x ∨ a ∈ l
  | [] => by simp [insertDescBy]
  | y :: ys => by
    simp only [insertDescBy]
    split
    · simp [List.mem_cons]
    · rw [List.mem_cons, mem_insertDescBy key x a ys, List.mem_cons]
      tauto

/-- Sorting keeps exactly the original elements. -/
theorem mem_sortDescBy {α : Type} (key : α → ℚ) (a : α) :
    ∀ (l : List α), a ∈ sortDescBy key l ↔ a ∈ l
  | [] => by simp [sortDescBy]
  | x :: xs => by
    unfold sortDescBy
    simp only [List.foldr_cons]
    rw [mem_insertDescBy]
    rw [show List.foldr (insertDescBy key) [] xs = sortDescBy key xs from rfl]
    rw [mem_sortDescBy key a xs]
    simp [List.mem_cons]

/-- C1: every result of the multi-sentence path of `temporal_search`
(`M ≥ 2` sentences, admissible `w_min ≥ 1` as enforced by the request
schema) reports, for the loaded feature matrix `V` of its video, exactly
`M` frame indices `0 ≤ i_1 < i_2 < … < i_M < F_v` with every consecutive
gap in `[w_min, w_max]`, the upper bound applying only when `w_max` is
set. -/
theorem temporal_result_frames_ordered (e : Engine) (text : Str) (k topk maxc : ℕ)
    (wmin : ℤ) (wmax : Option ℤ) (ss : List Str) (ps : List SentenceBlock)
    (cs : List Str) (rs : List VideoResult) (r : VideoResult)
    (hw : 1 ≤ wmin)
    (hM : 2 ≤ (splitSentencesDot (e.translator text)).length)
    (hout : temporalSearch e text k topk maxc wmin wmax = some (.multi ss ps cs rs))
    (hr : r ∈ rs) :
    ∃ V, e.videoFeats r.video_id = some V ∧
      r.frames.length = (splitSentencesDot (e.translator text)).length ∧
      (∀ f ∈ r.frames, f < V.length) ∧
      r.frames.Chain' (fun a b : ℕ => a < b ∧ wmin ≤ (b : ℤ) - (a : ℤ) ∧
        ∀ w ∈ wmax, (b : ℤ) - (a : ℤ) ≤ w) := by
  unfold temporalSearch at hout
  simp only [] at hout
  set sents := splitSentencesDot (e.translator text) with hsents
  rw [if_neg (by omega), if_neg (by omega)] at hout
  by_cases hc : (sents.map (fun s => rankedUnitsFor e topk (e.encode s))).foldl
      (scanCandidates maxc) [] = []
  · rw [if_pos hc] at hout
    simp only [Option.some.injEq, TemporalOut.multi.injEq] at hout
    obtain ⟨_, _, _, hrs⟩ := hout
    rw [← hrs] at hr
    simp at hr
  · rw [if_neg hc] at hout
    simp only [Option.some.injEq, TemporalOut.multi.injEq] at hout
    obtain ⟨hss, hps, hcs, hrs⟩ := hout
    have hrall : r ∈ temporalUntruncated e sents topk
        ((sents.map (fun s => rankedUnitsFor e topk (e.encode s))).foldl
          (scanCandidates maxc) []) wmin wmax := by
      rw [← hrs] at hr
      by_cases hk : 0 < k
      · rw [if_pos hk] at hr
        exact List.take_subset _ _ hr
      · rw [if_neg hk] at hr
        exact hr
    unfold temporalUntruncated at hrall
    simp only [] at hrall
    rw [mem_sortDescBy] at hrall
    obtain ⟨v, hv, hwv⟩ := List.mem_filterMap.1 hrall
    unfold videoResultFor at hwv
    cases hload : e.videoFeats v with
    | none =>
      rw [hload] at hwv
      exact absurd hwv (by simp)
    | some feats =>
      rw [hload] at hwv
      simp only [] at hwv
      obtain ⟨hvid, hlen, hmem, hchain⟩ :=
        processVideo_props feats _ _ v sents.length wmin wmax r hM (by simp) (by simp) hwv
      refine ⟨feats, ?_, hlen, hmem, ?_⟩
      · rw [hvid, hload]
      · refine hchain.imp ?_
        intro a b hab
        obtain ⟨h1, h2⟩ := (validGap_iff wmin wmax a b).1 hab
        refine ⟨by omega, h1, h2⟩

/-- Witness for C1: the theorem applied to the concrete engine `E1` and the
two-sentence query, at the first (and only) returned result. -/
theorem temporal_result_frames_ordered_witness :
    ∃ V, E1.videoFeats t1r.video_id = some V ∧
      t1r.frames.length = (splitSentencesDot (E1.translator txt1)).length ∧
      (∀ f ∈ t1r.frames, f < V.length) ∧
      t1r.frames.Chain' (fun a b : ℕ => a < b ∧ (1 : ℤ) ≤ (b : ℤ) - (a : ℤ) ∧
        ∀ w ∈ (none : Option ℤ), (b : ℤ) - (a : ℤ) ≤ w) :=
  temporal_result_frames_ordered E1 txt1 5 3 10 1 none t1ss t1ps t1cs t1rs t1r
    (by decide) (by decide) (by decide) (by decide)

/-- C3 counterexample: on the concrete engine `E1` a `k = 0` temporal
search returns a non-empty result list — the final `[:k]` truncation is
guarded by `if k and k > 0` and is skipped entirely at `k = 0`, so the
claimed empty list (with no encoding and no search) does not hold. -/
theorem temporal_k_zero_nonempty_counterexample :
    multiResultsOf (temporalSearch E1 txt1 0 3 10 1 none) ≠ [] := by decide

/-- C3 amended: at `k = 0` the searches still encode and search —
`text_search` passes `k = 0` to the index search and so returns the empty
hit lists only because the index returns no neighbours, and the
multi-sentence path of `temporal_search` runs the full pipeline and
returns its per-video results entirely untruncated (possibly
non-empty). -/
theorem k_zero_no_truncation_amended :
    (∀ (e : MultiEngine) (q : Str), textSearchB3 e q 0 mClip = .ok ([], [], [])) ∧
    (∀ (e : Engine) (text : Str) (topk maxc : ℕ) (wmin : ℤ) (wmax : Option ℤ)
      (ss : List Str) (ps : List SentenceBlock) (cs : List Str) (rs : List VideoResult),
      temporalSearch e text 0 topk maxc wmin wmax = some (.multi ss ps cs rs) →
      rs = temporalUntruncated e ss topk cs wmin wmax) := by
  constructor
  · intro e q
    simp [textSearchB3, eiSearch]
  · intro e text topk maxc wmin wmax ss ps cs rs hout
    unfold temporalSearch at hout
    simp only [] at hout
    split at hout
    · exact absurd hout (by simp)
    · split at hout
      · exact absurd hout (by simp)
      · split at hout
        · simp only [Option.some.injEq, TemporalOut.multi.injEq] at hout
          obtain ⟨hss, hps, hcs, hrs⟩ := hout
          subst hss
          subst hcs
          rw [← hrs]
          simp [temporalUntruncated, sortDescBy]
        · simp only [Option.some.injEq, TemporalOut.multi.injEq] at hout
          obtain ⟨hss, hps, hcs, hrs⟩ := hout
          subst hss
          subst hcs
          rw [← hrs]
          simp

/-- Witness for the amended C3: the `k = 0` text search on `E2` returns the
empty triple, and the `k = 0` temporal results on `E1` coincide with the
untruncated per-video result list. -/
theorem k_zero_no_truncation_amended_witness :
    textSearchB3 E2 [] 0 mClip = .ok ([], [], []) ∧
    t0rs = temporalUntruncated E1 t0ss 3 t0cs 1 none :=
  ⟨k_zero_no_truncation_amended.1 E2 [],
   k_zero_no_truncation_amended.2 E1 txt1 3 10 1 none t0ss t0ps t0cs t0rs (by decide)⟩

/-- C6 (code bug): the single-sentence fallback of `temporal_search`
returns a dictionary whose keys are `sentences`/`candidates`/`results` —
it does not carry `candidate_videos` (nor `per_sentence`), contradicting
the function's own docstring; consequently `TemporalService` raises
`KeyError` on it and serves its hard-coded mock data instead. -/
theorem single_sentence_fallback_key_mismatch :
    tC6out.keys = [(r"sentences").toList, (r"candidates").toList, (r"results").toList] ∧
    (r"candidate_videos").toList ∉ tC6out.keys ∧
    temporalServiceSearch E1 txtC6 5 3 10 1 none = mockTemporalData txtC6 5 := by
  refine ⟨?_, ?_, ?_⟩ <;> decide

/-- C2 (code bug): with the BEiT-3 model object missing
(`self.beit3_model is None`), `text_search` on model `beit3` does not fail:
it silently substitutes the random dummy feature vector and returns a
successful hit list computed from it against the real index — the output
is independent of the query text. -/
theorem beit3_unavailable_text_search_fakes_results (e : MultiEngine) (q q2 : Str) (k : ℕ)
    (h : e.beit3Model = none) :
    textSearchB3 e q k mBeit3 = textSearchB3 e q2 k mBeit3 ∧
    textSearchB3 e q k mBeit3 =
      .ok ((eiSearch e.beit3Index e.randFeat k).map (fun r => r.1),
           (eiSearch e.beit3Index e.randFeat k).map (fun r => r.2),
           ((eiSearch e.beit3Index e.randFeat k).map (fun r => r.2)).filterMap
             (lookupZ e.id2img)) := by
  have hname1 : ¬(mBeit3 = mClip) := by decide
  have hname2 : ¬(mBeit3 = mLongclip) := by decide
  refine ⟨?_, ?_⟩ <;> simp [textSearchB3, h, hname1, hname2]

/-- Witness for C2 at the concrete engine `E2` (whose BEiT-3 model is
missing) and two distinct queries. -/
theorem beit3_unavailable_text_search_fakes_results_witness :
    textSearchB3 E2 (r"a red car").toList 5 mBeit3 =
      textSearchB3 E2 (r"night sky").toList 5 mBeit3 ∧
    textSearchB3 E2 (r"a red car").toList 5 mBeit3 =
      .ok ((eiSearch E2.beit3Index E2.randFeat 5).map (fun r => r.1),
           (eiSearch E2.beit3Index E2.randFeat 5).map (fun r => r.2),
           ((eiSearch E2.beit3Index E2.randFeat 5).map (fun r => r.2)).filterMap
             (lookupZ E2.id2img)) :=
  beit3_unavailable_text_search_fakes_results E2 (r"a red car").toList
    (r"night sky").toList 5 rfl

/-- C10 amended: for the models `image_search` supports (`clip`,
`longclip`), a call providing neither or both of `image_id` and
`image_source` raises `ValueError` before any reconstruction, encoding or
index search takes place (the effect trace is empty). -/
theorem image_search_probe_validation (e : MultiEngine) (k : ℕ) (model : Str)
    (imageId : Option ℤ) (src : Option ImgSrc)
    (hm : model = mClip ∨ model = mLongclip)
    (hp : (imageId = none ∧ src = none) ∨ (imageId.isSome ∧ src.isSome)) :
    imageSearchB3 e k model imageId src = (.error .valueError, []) := by
  have hboth : ∀ vecs : List (List ℚ),
      (match imageId, src with
        | none, none =>
          ((.error .valueError : Except SearchErr (List ℚ × List ℤ × List Str)), ([] : List Eff))
        | some _, some _ => (.error .valueError, [])
        | some i, none =>
          if 0 ≤ i ∧ i.toNat < vecs.length then
            let q := vecs.getD i.toNat []
            let res := eiSearch vecs (e.nrm q) k
            (.ok (res.map (fun r => r.1), res.map (fun r => r.2),
                  (res.map (fun r => r.2)).filterMap (lookupZ e.id2img)),
             [.reconstructEff i, .searchEff])
          else (.error .runtimeError, [.reconstructEff i])
        | none, some s =>
          match (if model = mClip then e.clipEncodeImage s else e.longclipEncodeImage s) with
          | none => (.error .valueError, [.encodeEff])
          | some q =>
            let res := eiSearch vecs (e.nrm q) k
            (.ok (res.map (fun r => r.1), res.map (fun r => r.2),
                  (res.map (fun r => r.2)).filterMap (lookupZ e.id2img)),
             [.encodeEff, .searchEff])) = (.error .valueError, []) := by
    intro vecs
    rcases hp with ⟨h1, h2⟩ | ⟨h1, h2⟩
    · subst h1
      subst h2
      rfl
    · obtain ⟨i, hi⟩ := Option.isSome_iff_exists.1 h1
      obtain ⟨s, hs2⟩ := Option.isSome_iff_exists.1 h2
      subst hi
      subst hs2
      rfl
  unfold imageSearchB3
  rcases hm with rfl | rfl
  · rw [if_pos rfl]
    exact hboth e.clipIndex
  · rw [if_neg (by decide), if_pos rfl]
    exact hboth e.longclipIndex

/-- Witness for the amended C10: both-`none` probes on `E2` with model
`clip` fail with `ValueError` and no effects. -/
theorem image_search_probe_validation_witness :
    imageSearchB3 E2 5 mClip none none = (.error .valueError, []) :=
  image_search_probe_validation E2 5 mClip none none (Or.inl rfl) (Or.inl ⟨rfl, rfl⟩)

/-- C10 counterexample: a call with an unsupported model (`beit3`) and both
probe arguments `none` raises `NotImplementedError`, not the `ValueError`
the claim asserts for every such call — the index dispatch runs before the
probe validation. -/
theorem image_search_unsupported_model_counterexample :
    (imageSearchB3 E2 5 mBeit3 none none).1 = .error .notImplemented ∧
    ¬((imageSearchB3 E2 5 mBeit3 none none).1 = .error .valueError) := by
  refine ⟨rfl, ?_⟩
  intro h
  exact absurd (Except.error.inj h) (by decide)

/-- Every output of the deduplication loop comes from the accumulator or
the input list. -/
theorem dedupByKey_mem {α : Type} (key : α → Str) (limit : ℕ) :
    ∀ (l : List α) (seen : List Str) (acc : List α) (r : α),
      r ∈ dedupByKey key limit seen acc l → r ∈ acc ∨ r ∈ l
  | [], _, acc, r, h => by
    simp only [dedupByKey, List.mem_reverse] at h
    exact Or.inl h
  | x :: rest, seen, acc, r, h => by
    simp only [dedupByKey] at h
    split at h
    · rcases dedupByKey_mem key limit rest seen acc r h with h2 | h2
      · exact Or.inl h2
      · exact Or.inr (List.mem_cons_of_mem _ h2)
    · split at h
      · rw [List.mem_reverse] at h
        rcases List.mem_cons.1 h with rfl | h2
        · exact Or.inr (List.mem_cons_self _ _)
        · exact Or.inl h2
      · rcases dedupByKey_mem key limit rest (key x :: seen) (x :: acc) r h with h2 | h2
        · rcases List.mem_cons.1 h2 with rfl | h3
          · exact Or.inr (List.mem_cons_self _ _)
          · exact Or.inl h3
        · exact Or.inr (List.mem_cons_of_mem _ h2)

/-- C7: every hit returned by the single-model service text search scores
at least the model's floor (0.20 for CLIP, 0.40 for BEiT-3, 1.0 for
LongCLIP and CLIP2Video); sub-floor hits are dropped silently, so the list
may come back empty, but never carries a sub-floor score. -/
theorem text_search_score_floor (model : ModelT) (scores : List ℚ) (idxs : List ℤ)
    (paths : List Str) (limit : ℕ) (meta : Str → Option Unit) (r : SR)
    (hr : r ∈ serviceTextSearch model scores idxs paths limit meta) :
    floorOf model ≤ r.score := by
  unfold serviceTextSearch at hr
  simp only [] at hr
  split at hr
  · simp at hr
  · unfold enhanceResults at hr
    obtain ⟨r0, hr0, hr0eq⟩ := List.mem_map.1 hr
    have hscore : r.score = r0.score := by
      cases hm : meta r0.image_id with
      | none =>
        rw [hm] at hr0eq
        simp only [] at hr0eq
        rw [← hr0eq]
      | some u =>
        rw [hm] at hr0eq
        simp only [] at hr0eq
        rw [← hr0eq]
    rw [hscore]
    rcases dedupByKey_mem (fun r : SR => r.image_id) limit _ [] [] r0 hr0 with h2 | h2
    · simp at h2
    · obtain ⟨row, hrow, hrow2⟩ := List.mem_map.1 h2
      have hpred := List.of_mem_filter hrow
      simp only [decide_eq_true_eq, Bool.and_eq_true] at hpred
      rw [← hrow2]
      simp only [srOf]
      exact hpred.2

/-- Witness for C7: the theorem applied to a concrete CLIP search whose one
row passes the 0.20 floor. -/
theorem text_search_score_floor_witness : floorOf ModelT.clip ≤ c7r.score :=
  text_search_score_floor .clip [1 / 2] [0]
    [(r"kf/Keyframes_L1/keyframes/L1_V001/001.jpg").toList] 5 (fun _ => none) c7r
    (by decide)

/-- Insertion into a descending-pairwise list preserves the order. -/
theorem pairwise_insertDescBy {α : Type} (sc : α → ℚ) (x : α) :
    ∀ (l : List α), l.Pairwise (fun a b => sc b ≤ sc a) →
      (insertDescBy sc x l).Pairwise (fun a b => sc b ≤ sc a)
  | [], _ => by simp [insertDescBy]
  | y :: ys, h => by
    obtain ⟨hy, hys⟩ := List.pairwise_cons.1 h
    simp only [insertDescBy]
    split
    · next hle =>
      rw [List.pairwise_cons]
      refine ⟨?_, h⟩
      intro b hb
      rcases List.mem_cons.1 hb with rfl | hb2
      · exact hle
      · exact le_trans (hy b hb2) hle
    · next hgt =>
      rw [List.pairwise_cons]
      refine ⟨?_, pairwise_insertDescBy sc x ys hys⟩
      intro b hb
      rw [mem_insertDescBy] at hb
      rcases hb with rfl | hb2
      · exact le_of_lt (lt_of_not_le hgt)
      · exact hy b hb2

/-- The stable sort is pairwise descending. -/
theorem pairwise_sortDescBy {α : Type} (sc : α → ℚ) :
    ∀ (l : List α), (sortDescBy sc l).Pairwise (fun a b => sc b ≤ sc a)
  | [] => by simp [sortDescBy]
  | x :: xs => by
    unfold sortDescBy
    simp only [List.foldr_cons]
    exact pairwise_insertDescBy sc x _ (pairwise_sortDescBy sc xs)

/-- The deduplication loop never emits two elements with the same key. -/
theorem dedupByKey_keys_nodup {α : Type} (key : α → Str) (limit : ℕ) :
    ∀ (l : List α) (seen : List Str) (acc : List α),
      (∀ a ∈ acc, key a ∈ seen) → (acc.map key).Nodup →
      ((dedupByKey key limit seen acc l).map key).Nodup
  | [], _, acc, _, hnd => by
    simp only [dedupByKey]
    rw [List.map_reverse, List.nodup_reverse]
    exact hnd
  | x :: rest, seen, acc, hsub, hnd => by
    simp only [dedupByKey]
    split
    · exact dedupByKey_keys_nodup key limit rest seen acc hsub hnd
    · next hx =>
      have hxacc : key x ∉ acc.map key := by
        intro hmem
        obtain ⟨a, ha, hae⟩ := List.mem_map.1 hmem
        exact hx (hae ▸ hsub a ha)
      split
      · rw [List.map_reverse, List.nodup_reverse]
        simp only [List.map_cons]
        exact List.nodup_cons.2 ⟨hxacc, hnd⟩
      · refine dedupByKey_keys_nodup key limit rest (key x :: seen) (x :: acc) ?_ ?_
        · intro a ha
          rcases List.mem_cons.1 ha with rfl | h2
          · exact List.mem_cons_self _ _
          · exact List.mem_cons_of_mem _ (hsub a h2)
        · simp only [List.map_cons]
          exact List.nodup_cons.2 ⟨hxacc, hnd⟩

/-- The deduplication loop output has at most `limit` elements once the
accumulator is strictly below the limit. -/
theorem dedupByKey_length {α : Type} (key : α → Str) (limit : ℕ) :
    ∀ (l : List α) (seen : List Str) (acc : List α), acc.length < limit →
      (dedupByKey key limit seen acc l).length ≤ limit
  | [], _, acc, h => by
    simp only [dedupByKey, List.length_reverse]
    omega
  | x :: rest, seen, acc, h => by
    simp only [dedupByKey]
    split
    · exact dedupByKey_length key limit rest seen acc h
    · split
      · next hbrk =>
        simp only [List.length_reverse, List.length_cons]
        omega
      · next hbrk =>
        refine dedupByKey_length key limit rest (key x :: seen) (x :: acc) ?_
        simp only [List.length_cons]
        omega

/-- The deduplication loop preserves descending order. -/
theorem dedupByKey_sorted {α : Type} (key : α → Str) (sc : α → ℚ) (limit : ℕ) :
    ∀ (l : List α) (seen : List Str) (acc : List α),
      l.Pairwise (fun a b => sc b ≤ sc a) →
      (∀ x ∈ l, ∀ a ∈ acc, sc x ≤ sc a) →
      acc.Chain' (fun a b => sc a ≤ sc b) →
      (dedupByKey key limit seen acc l).Chain' (fun a b => sc b ≤ sc a)
  | [], _, acc, _, _, hacc => by
    simp only [dedupByKey]
    rw [List.chain'_reverse]
    exact hacc
  | x :: rest, seen, acc, hp, hbound, hacc => by
    obtain ⟨hx, hrest⟩ := List.pairwise_cons.1 hp
    simp only [dedupByKey]
    split
    · exact dedupByKey_sorted key sc limit rest seen acc hrest
        (fun y hy a ha => hbound y (List.mem_cons_of_mem _ hy) a ha) hacc
    · split
      · rw [List.chain'_reverse]
        rw [List.chain'_cons']
        refine ⟨?_, hacc⟩
        intro b hb
        exact hbound x (List.mem_cons_self _ _) b (List.mem_of_mem_head? hb)
      · refine dedupByKey_sorted key sc limit rest (key x :: seen) (x :: acc) hrest ?_ ?_
        · intro y hy a ha
          rcases List.mem_cons.1 ha with rfl | h2
          · exact hx y hy
          · exact hbound y (List.mem_cons_of_mem _ hy) a h2
        · rw [List.chain'_cons']
          refine ⟨?_, hacc⟩
          intro b hb
          exact hbound x (List.mem_cons_self _ _) b (List.mem_of_mem_head? hb)

/-- Over a descending input, every kept element is the first occurrence of
its key and so carries the highest score among equal-key elements. -/
theorem dedupByKey_highest {α : Type} (key : α → Str) (sc : α → ℚ) (limit : ℕ) :
    ∀ (l : List α) (seen : List Str) (acc : List α) (r : α),
      l.Pairwise (fun a b => sc b ≤ sc a) →
      r ∈ dedupByKey key limit seen acc l →
      r ∈ acc ∨ (r ∈ l ∧ key r ∉ seen ∧ ∀ x ∈ l, key x = key r → sc x ≤ sc r)
  | [], _, acc, r, _, h => by
    simp only [dedupByKey, List.mem_reverse] at h
    exact Or.inl h
  | x :: rest, seen, acc, r, hp, h => by
    obtain ⟨hx, hrest⟩ := List.pairwise_cons.1 hp
    simp only [dedupByKey] at h
    split at h
    · next hseen =>
      rcases dedupByKey_highest key sc limit rest seen acc r hrest h with h2 | ⟨h2, h3, h4⟩
      · exact Or.inl h2
      · refine Or.inr ⟨List.mem_cons_of_mem _ h2, h3, ?_⟩
        intro y hy hk
        rcases List.mem_cons.1 hy with rfl | hy2
        · exact absurd (hk ▸ hseen) h3
        · exact h4 y hy2 hk
    · next hnew =>
      split at h
      · rw [List.mem_reverse] at h
        rcases List.mem_cons.1 h with rfl | h2
        · refine Or.inr ⟨List.mem_cons_self _ _, hnew, ?_⟩
          intro y hy hk
          rcases List.mem_cons.1 hy with rfl | hy2
          · exact le_refl _
          · exact hx y hy2
        · exact Or.inl h2
      · rcases dedupByKey_highest key sc limit rest (key x :: seen) (x :: acc) r hrest h
          with h2 | ⟨h2, h3, h4⟩
        · rcases List.mem_cons.1 h2 with rfl | h3
          · refine Or.inr ⟨List.mem_cons_self _ _, hnew, ?_⟩
            intro y hy hk
            rcases List.mem_cons.1 hy with rfl | hy2
            · exact le_refl _
            · exact hx y hy2
          · exact Or.inl h3
        · refine Or.inr ⟨List.mem_cons_of_mem _ h2,
            fun hc => h3 (List.mem_cons_of_mem _ hc), ?_⟩
          intro y hy hk
          rcases List.mem_cons.1 hy with rfl | hy2
          · refine absurd ?_ h3
            rw [← hk]
            exact List.mem_cons_self _ _
          · exact h4 y hy2 hk

/-- C8 counterexample: with `k = 0` the fusion loop still returns one hit —
the `len(unique_results) >= limit` break is tested only after an append, so
"length at most k" fails at `k = 0`. -/
theorem fusion_k_zero_length_counterexample :
    ¬((fuseAllModels [c8a] 0).length ≤ 0) := by decide

/-- C8 amended: for `k ≥ 1` (as the request schemas enforce), the fused
multi-model list has no duplicate asset paths, keeps the highest-scoring
occurrence of each path, is sorted by raw score descending, and has at most
`k` elements; at `k = 0` a single hit can still be returned. -/
theorem fusion_dedup_sorted_bounded (rs : List SR) (limit : ℕ) (hl : 1 ≤ limit) :
    ((fuseAllModels rs limit).map (fun r => r.link)).Nodup ∧
    (fuseAllModels rs limit).Chain' (fun a b => b.score ≤ a.score) ∧
    (fuseAllModels rs limit).length ≤ limit ∧
    (∀ r ∈ fuseAllModels rs limit, ∀ x ∈ rs, x.link = r.link → x.score ≤ r.score) := by
  have hpw := pairwise_sortDescBy (fun r : SR => r.score) rs
  refine ⟨?_, ?_, ?_, ?_⟩
  · exact dedupByKey_keys_nodup _ limit _ [] [] (by simp) (by simp)
  · exact dedupByKey_sorted _ _ limit _ [] [] hpw (by simp) (by simp)
  · exact dedupByKey_length _ limit _ [] [] (by simp only [List.length_nil]; omega)
  · intro r hr x hx hk
    rcases dedupByKey_highest (fun r : SR => r.link) (fun r : SR => r.score) limit _ [] [] r
        hpw hr with h2 | ⟨_, _, h4⟩
    · simp at h2
    · exact h4 x ((mem_sortDescBy _ x rs).2 hx) hk

/-- Witness for the amended C8: three concrete hits, two sharing an asset
path, fused with `k = 2`. -/
theorem fusion_dedup_sorted_bounded_witness :
    ((fuseAllModels [c8a, c8b, c8c] 2).map (fun r => r.link)).Nodup ∧
    (fuseAllModels [c8a, c8b, c8c] 2).Chain' (fun a b => b.score ≤ a.score) ∧
    (fuseAllModels [c8a, c8b, c8c] 2).length ≤ 2 ∧
    (∀ r ∈ fuseAllModels [c8a, c8b, c8c] 2, ∀ x ∈ [c8a, c8b, c8c],
      x.link = r.link → x.score ≤ r.score) :=
  fusion_dedup_sorted_bounded [c8a, c8b, c8c] 2 (by decide)

/-- The final fallback always fires for over-budget text, since the head
and tail budgets sum below the overall budget. -/
theorem truncFallback_eq (mt : ℕ) (t : Str) (h : mt * 4 < t.length) :
    truncFallback mt t =
      t.take (mt * 24 / 10) ++ ['.', '.', '.'] ++ takeLast (mt * 16 / 10) t := by
  unfold truncFallback
  rw [if_pos h, if_pos (by omega)]

set_option maxRecDepth 100000 in
/-- C9 counterexample: on a 403-character text of three sentences whose
first sentence alone fits the budget, the code keeps the first sentence
concatenated with the last (its first check), not the first sentence alone
as the claim's preference order requires. -/
theorem truncation_order_counterexample :
    truncateTextForClip 77 txt9 ≠ claimTruncate 77 txt9 := by decide

/-- C9 amended: the truncation prefers, in this order, the first-plus-last
sentence combination, then the first sentence alone, then the leading
`int(0.6 * 4 * max_tokens)` characters plus an ellipsis plus the trailing
`int(0.4 * 4 * max_tokens)` characters (Python counts characters, not
bytes); text that still fails tokenisation is hard-truncated to its first
50 characters and retried once. -/
theorem truncation_amended :
    (∀ (mt : ℕ) (t : Str), truncateTextForClip mt t = amendTruncate mt t) ∧
    (∀ {F : Type} (tok : Str → Option F) (t : Str),
      tok (truncateTextForClip 77 t) = none →
      clipEncodeRetry tok t = tok ((truncateTextForClip 77 t).take 50)) := by
  constructor
  · intro mt t
    unfold truncateTextForClip amendTruncate
    by_cases hA : t.length ≤ mt * 4
    · rw [if_pos hA, if_pos hA]
    · rw [if_neg hA, if_neg hA]
      simp only []
      by_cases hn : 1 < (splitSentencesPunct t).length
      · by_cases hfl : ((splitSentencesPunct t).headD [] ++
            ' ' :: (splitSentencesPunct t).getLastD []).length ≤ mt * 4
        · rw [if_pos hn, if_pos hfl, if_pos ⟨hn, hfl⟩]
        · have hany1 : ¬(1 < (splitSentencesPunct t).length ∧
              ((splitSentencesPunct t).headD [] ++
                ' ' :: (splitSentencesPunct t).getLastD []).length ≤ mt * 4) :=
            fun hc => hfl hc.2
          rw [if_pos hn, if_neg hfl, if_neg hany1]
          by_cases hf : ((splitSentencesPunct t).headD []).length ≤ mt * 4
          · rw [if_pos hf, if_pos ⟨hn, hf⟩]
          · have hany2 : ¬(1 < (splitSentencesPunct t).length ∧
                ((splitSentencesPunct t).headD []).length ≤ mt * 4) :=
              fun hc => hf hc.2
            rw [if_neg hf, if_neg hany2]
            exact truncFallback_eq mt t (by omega)
      · have hany1 : ¬(1 < (splitSentencesPunct t).length ∧
            ((splitSentencesPunct t).headD [] ++
              ' ' :: (splitSentencesPunct t).getLastD []).length ≤ mt * 4) :=
          fun hc => hn hc.1
        have hany2 : ¬(1 < (splitSentencesPunct t).length ∧
            ((splitSentencesPunct t).headD []).length ≤ mt * 4) :=
          fun hc => hn hc.1
        rw [if_neg hn, if_neg hany1, if_neg hany2]
        exact truncFallback_eq mt t (by omega)
  · intro F tok t hfail
    unfold clipEncodeRetry
    simp only []
    rw [hfail]

/-- Witness for the amended C9: the equality at the concrete text `txt9`,
and the retry at a tokeniser that always fails. -/
theorem truncation_amended_witness :
    truncateTextForClip 77 txt9 = amendTruncate 77 txt9 ∧
    clipEncodeRetry tokNone txt9 = tokNone ((truncateTextForClip 77 txt9).take 50) :=
  ⟨truncation_amended.1 77 txt9, truncation_amended.2 tokNone txt9 rfl⟩

/-- C7 counterexample: with the engine loaded, a `clip2video` text search
reads the never-assigned `self.clip2video_model` attribute, the engine call
raises, and the `except Exception` handler returns mock hits — the first
returned hit scores `0.9`, below the `1.0` floor the claim asserts for
every returned hit. -/
theorem text_search_floor_mock_counterexample :
    c7m ∈ serviceTextSearchFull E2 ModelT.clip2video (r"a red car").toList 5 (fun _ => none) ∧
    c7m.score < floorOf ModelT.clip2video := by
  refine ⟨by decide, by decide⟩

/-- C7 amended: when the engine call returns without raising, every hit of
the single-model service text search scores at least the model's floor
(0.20 for CLIP, 0.40 for BEiT-3, 1.0 for LongCLIP and CLIP2Video), with
sub-floor hits dropped silently; when the engine call raises, the
exception handler instead returns the fabricated mock list, whose scores
(`0.9 - 0.1 * i`) fall below every floor. -/
theorem text_search_score_floor_amended :
    (∀ (e : MultiEngine) (model : ModelT) (q : Str) (limit : ℕ) (meta : Str → Option Unit)
        (out : List ℚ × List ℤ × List Str) (r : SR),
        textSearchB3 e q limit (modelName model) = .ok out →
        r ∈ serviceTextSearchFull e model q limit meta →
        floorOf model ≤ r.score) ∧
    (∀ (e : MultiEngine) (model : ModelT) (q : Str) (limit : ℕ) (meta : Str → Option Unit)
        (er : SearchErr),
        textSearchB3 e q limit (modelName model) = .error er →
        serviceTextSearchFull e model q limit meta =
          mockSearchResults (r"text").toList limit) := by
  constructor
  · intro e model q limit meta out r hok hr
    unfold serviceTextSearchFull at hr
    rw [hok] at hr
    simp only [] at hr
    exact text_search_score_floor model out.1 out.2.1 out.2.2 limit meta r hr
  · intro e model q limit meta er herr
    unfold serviceTextSearchFull
    rw [herr]

/-- Witness for the amended C7: the success branch on a concrete CLIP
search over `E2`, and the exception branch on the concrete `clip2video`
search whose engine call raises `AttributeError`. -/
theorem text_search_score_floor_amended_witness :
    floorOf ModelT.clip ≤ c7s.score ∧
    serviceTextSearchFull E2 ModelT.clip2video (r"a red car").toList 5 (fun _ => none) =
      mockSearchResults (r"text").toList 5 :=
  ⟨text_search_score_floor_amended.1 E2 ModelT.clip (r"a red car").toList 5 (fun _ => none)
      c7out c7s rfl (by decide),
   text_search_score_floor_amended.2 E2 ModelT.clip2video (r"a red car").toList 5
      (fun _ => none) SearchErr.attributeError rfl⟩
